import Mathlib

/-!
Shallow embedding of the process/task-management core of the rCore teaching
kernel (files `os/src/syscall/process.rs`, `os/src/task/mod.rs`,
`os/src/task/manager.rs`), together with proofs of the specification claims
about it.

The page-table and map-area primitives live in `os/src/mm/` which is an
external collaborator of this core (spec section 1); those primitives are
modelled from the spec (section 4.1 and section 6) and are marked as such in
their doc comments.  Everything else is translated directly from the source.
-/

namespace RCore

/-- `PAGE_SIZE` from `os/src/config.rs` (4 KiB pages on riscv64). -/
def PAGE_SIZE : Nat := 4096

/-- Task status, union of the variants used by `os/src/task/task.rs`
(ch4 variant: `UnInit`, `Ready`, `Running`, `Exited`) and by the PCB layer
referenced from `os/src/syscall/process.rs` (`Zombie`). -/
inductive TaskStatus where
  | UnInit
  | Ready
  | Running
  | Exited
  | Zombie
deriving DecidableEq, Repr, Inhabited

/-!
## Page table and memory-set model

Modelled from the spec: the page-table primitive operations are external
collaborators ("the page-table/TLB primitive operations (assumed atomic
single-instruction updates)" are out of scope, spec section 1).  The spec
describes them in section 4.1: `translate(virtual_page)` returns the
page-table entry for a page if mapped, else "unmapped"; mapping installs an
entry for one page; unmapping clears it.  We represent the page table as an
association list from virtual page number to page-table-entry bits; mapping
replaces an existing entry for the page or appends a new one, unmapping
removes the page's entry (a cleared entry is indistinguishable from an
absent one at this level).
-/

/-- A page table: association list from virtual page number to PTE bits. -/
abbrev PageTable := List (Nat × Nat)

/-- Modelled from the spec: `translate` (section 4.1) — the PTE bits for a
page if present, else `none`. -/
def translate (pt : PageTable) (vpn : Nat) : Option Nat :=
  match pt with
  | [] => none
  | p :: rest => if p.1 = vpn then some p.2 else translate rest vpn

/-- Modelled from the spec: installing a page-table entry for one page
(replaces the page's entry if one exists, otherwise adds it). -/
def ptMap (pt : PageTable) (vpn bits : Nat) : PageTable :=
  match pt with
  | [] => [(vpn, bits)]
  | p :: rest =>
      if p.1 = vpn then (vpn, bits) :: rest else p :: ptMap rest vpn bits

/-- Modelled from the spec: clearing the page-table entry of one page. -/
def ptUnmap (pt : PageTable) (vpn : Nat) : PageTable :=
  match pt with
  | [] => []
  | p :: rest => if p.1 = vpn then ptUnmap rest vpn else p :: ptUnmap rest vpn

/-- A virtual memory area (`MapArea` in `os/src/mm/memory_set.rs`, external):
a half-open virtual-page-number range plus permission bits.  The framed
data frames are owned by the frame allocator, an external collaborator, and
are not modelled. -/
structure MapArea where
  vpnStart : Nat
  vpnEnd : Nat
  perm : Nat
deriving DecidableEq, Repr, Inhabited

/-- An address space (`MemorySet`): page table plus ordered VMA list. -/
structure MemorySet where
  page_table : PageTable
  areas : List MapArea
deriving DecidableEq, Repr, Inhabited

/-- The list of virtual page numbers in the half-open range `[s, e)`,
in ascending order (the iteration order of `VPNRange`). -/
def rangeVpns (s e : Nat) : List Nat :=
  (List.range (e - s)).map (fun k => s + k)

/-- `VirtAddr::floor`: the page containing a virtual address. -/
def floorVpn (va : Nat) : Nat := va / PAGE_SIZE

/-- `VirtAddr::ceil`: the first page boundary at or above an address. -/
def ceilVpn (va : Nat) : Nat := (va + PAGE_SIZE - 1) / PAGE_SIZE

/-- The PTE bits installed for a framed page with permission `perm`:
the permission flags plus the valid bit (bit 0). -/
def pteBits (perm : Nat) : Nat := perm ||| 1

/-- Modelled from the spec: `MapArea::map` — install one PTE per page of the
area's range, with the area's permission plus the valid bit. -/
def areaMap (a : MapArea) (pt : PageTable) : PageTable :=
  (rangeVpns a.vpnStart a.vpnEnd).foldl (fun acc v => ptMap acc v (pteBits a.perm)) pt

/-- Modelled from the spec: `MapArea::unmap` — clear every PTE of the
area's range (releasing the backing frames, which we do not model). -/
def areaUnmap (a : MapArea) (pt : PageTable) : PageTable :=
  (rangeVpns a.vpnStart a.vpnEnd).foldl (fun acc v => ptUnmap acc v) pt

/-- Modelled from the spec: `MemorySet::insert_framed_area` (section 4.1) —
round `startVa` down and `endVa` up to page boundaries, map every page in
the resulting range, and append a new VMA record. -/
def insert_framed_area (ms : MemorySet) (startVa endVa perm : Nat) : MemorySet :=
  let a : MapArea := ⟨floorVpn startVa, ceilVpn endVa, perm⟩
  { page_table := areaMap a ms.page_table, areas := ms.areas ++ [a] }

/-- The `MapPermission` bits requested by `sys_mmap`:
`MapPermission::from_bits((_port as u8) << 1)` with the `U` bit (bit 4) set. -/
def mmapPerm (port : Nat) : Nat := (port <<< 1) ||| 16

/-- The conflict test of `sys_mmap` / `TaskManager::get_mm`:
`inner.memory_set.translate(vpn).is_some() && ...unwrap().bits != 0`. -/
def vpnMapped (ms : MemorySet) (vpn : Nat) : Bool :=
  match translate ms.page_table vpn with
  | some b => b != 0
  | none => false

/-- `sys_mmap` from `os/src/syscall/process.rs` (identical logic to
`TaskManager::get_mm` in `os/src/task/mod.rs`), acting on the current
task's address space: reject an unaligned start, reject a port outside
`{1, 2, 3}`, reject when any page of
`[floor(start), ceil(start + len))` is already mapped with nonzero bits;
otherwise insert a framed area over `[start, start + len)` with the
permission derived from `port` plus the user bit.  Returns the syscall
result together with the (possibly updated) address space. -/
def sys_mmap (start len port : Nat) (ms : MemorySet) : Int × MemorySet :=
  if start % PAGE_SIZE != 0 then (-1, ms)
  else if port != 1 && port != 2 && port != 3 then (-1, ms)
  else
    let s := floorVpn start
    let e := ceilVpn (start + len)
    if (rangeVpns s e).any (fun vpn => vpnMapped ms vpn) then (-1, ms)
    else (0, insert_framed_area ms start (start + len) (mmapPerm port))

/-- The search loop of `sys_munmap` / `TaskManager::get_unmap`: iterate over
all areas keeping the index of the LAST area whose `vpn_range` bounds equal
`(s, e)` exactly (`id`/`flag` in the source). -/
def munmapFindAux (areas : List MapArea) (s e i : Nat) (acc : Option Nat) : Option Nat :=
  match areas with
  | [] => acc
  | a :: rest =>
      munmapFindAux rest s e (i + 1)
        (if a.vpnStart == s && a.vpnEnd == e then some i else acc)

/-- `sys_munmap` from `os/src/syscall/process.rs` (identical logic to
`TaskManager::get_unmap` in `os/src/task/mod.rs`): reject an unaligned
start; scan for an area whose bounds exactly equal
`[floor(start), ceil(start + len))`; if none, fail; otherwise unmap that
area's pages and remove its record. -/
def sys_munmap (start len : Nat) (ms : MemorySet) : Int × MemorySet :=
  if start % PAGE_SIZE != 0 then (-1, ms)
  else
    let s := floorVpn start
    let e := ceilVpn (start + len)
    match munmapFindAux ms.areas s e 0 none with
    | none => (-1, ms)
    | some id =>
        let a := ms.areas.getD id default
        (0, { page_table := areaUnmap a ms.page_table,
              areas := ms.areas.eraseIdx id })

/-!
## Child PCBs and `sys_waitpid`
-/

/-- The part of a child's `TaskControlBlock` that `sys_waitpid` reads:
pid, status, exit code.  (`TaskControlBlock` itself lives in
`os/src/task/task.rs`, not shown; these fields are those the spec and
`sys_waitpid` rely on.) -/
structure ChildPCB where
  pid : Nat
  status : TaskStatus
  exit_code : Int
deriving DecidableEq, Repr, Inhabited

/-- `TaskControlBlockInner::is_zombie`. -/
def isZombie (c : ChildPCB) : Bool := c.status == TaskStatus.Zombie

/-- The child filter of `sys_waitpid`:
`pid == -1 || pid as usize == p.getpid()`. -/
def childMatches (pid : Int) (c : ChildPCB) : Bool :=
  pid == -1 || pid == Int.ofNat c.pid

/-- First index of a list element satisfying `p` (the
`iter().enumerate().find(...)` pattern of `sys_waitpid`). -/
def findFirstIdx (p : α → Bool) : List α → Option Nat
  | [] => none
  | a :: rest => if p a then some 0 else (findFirstIdx p rest).map (fun i => i + 1)

/-- `sys_waitpid` from `os/src/syscall/process.rs`, acting on the parent's
children list.  Returns the syscall result, the updated children list, and
the exit code written through `exit_code_ptr` (`none` when nothing is
written). -/
def sys_waitpid (pid : Int) (children : List ChildPCB) :
    Int × List ChildPCB × Option Int :=
  if !(children.any (fun c => childMatches pid c)) then (-1, children, none)
  else
    match findFirstIdx (fun c => isZombie c && childMatches pid c) children with
    | some idx =>
        let child := children.getD idx default
        (Int.ofNat child.pid, (children.eraseIdx idx, some child.exit_code))
    | none => (-2, children, none)

/-!
## The ch4 task table and `run_next_task`
-/

/-- The fields of the ch4 `TaskControlBlock` that scheduling touches:
status and start timestamp (`start_time`, recorded in milliseconds). -/
structure TaskBlock where
  task_status : TaskStatus
  start_time : Nat
deriving DecidableEq, Repr, Inhabited

/-- `TaskManagerInner` from `os/src/task/mod.rs`: the task list and the id
of the current `Running` task. -/
structure TaskManagerInner where
  tasks : List TaskBlock
  current_task : Nat
deriving DecidableEq, Repr, Inhabited

/-- `TaskManager::mark_current_suspended`: set the current task's status to
`Ready`. -/
def mark_current_suspended (inn : TaskManagerInner) : TaskManagerInner :=
  let cur := inn.tasks.getD inn.current_task default
  { inn with tasks := inn.tasks.set inn.current_task { cur with task_status := TaskStatus.Ready } }

/-- `TaskManager::mark_current_exited`: set the current task's status to
`Exited`. -/
def mark_current_exited (inn : TaskManagerInner) : TaskManagerInner :=
  let cur := inn.tasks.getD inn.current_task default
  { inn with tasks := inn.tasks.set inn.current_task { cur with task_status := TaskStatus.Exited } }

/-- `TaskManager::find_next_task`: scan
`(current + 1 ..= current + num_app)` modulo `num_app` for the first
`Ready` slot. -/
def find_next_task (num_app : Nat) (inn : TaskManagerInner) : Option Nat :=
  ((List.range num_app).map (fun k => (inn.current_task + 1 + k) % num_app)).find?
    (fun id => (inn.tasks.getD id default).task_status == TaskStatus.Ready)

/-- `TaskManager::run_next_task`, up to the `__switch` call: pick the next
`Ready` task; set its status to `Running`, record its start timestamp
(`now`, the value of `get_time_ms()`), and make it current.  The context
switch itself is the external `__switch` primitive; the returned state is
the state it observes.  `none` models the `panic!("All applications
completed!")` branch. -/
def run_next_task (num_app now : Nat) (inn : TaskManagerInner) :
    Option TaskManagerInner :=
  match find_next_task num_app inn with
  | some next =>
      let nxt := inn.tasks.getD next default
      let nxt := { nxt with task_status := TaskStatus.Running, start_time := now }
      some { tasks := inn.tasks.set next nxt, current_task := next }
  | none => none

/-- `suspend_current_and_run_next` from `os/src/task/mod.rs`:
`mark_current_suspended(); run_next_task()`. -/
def suspend_current_and_run_next (num_app now : Nat) (inn : TaskManagerInner) :
    Option TaskManagerInner :=
  run_next_task num_app now (mark_current_suspended inn)

/-- `exit_current_and_run_next` from `os/src/task/mod.rs`:
`mark_current_exited(); run_next_task()`. -/
def exit_current_and_run_next (num_app now : Nat) (inn : TaskManagerInner) :
    Option TaskManagerInner :=
  run_next_task num_app now (mark_current_exited inn)

/-!
## The FIFO task manager (`os/src/task/manager.rs`)
-/

/-- The FIFO `TaskManager` of `os/src/task/manager.rs`: a ready queue of
task handles (`Arc<TaskControlBlock>` in the source, abstracted to an
arbitrary type) plus the `sum` counter. -/
structure FifoTaskManager (α : Type) where
  ready_queue : List α
  sum : Nat
deriving DecidableEq, Repr

namespace FifoTaskManager

/-- `TaskManager::new`: empty queue, zero counter. -/
def new : FifoTaskManager α := ⟨[], 0⟩

/-- `TaskManager::add`: `push_back` plus `sum += 1`. -/
def add (m : FifoTaskManager α) (task : α) : FifoTaskManager α :=
  { ready_queue := m.ready_queue ++ [task], sum := m.sum + 1 }

/-- `TaskManager::fetch`: `if sum != 0 { sum -= 1 }` then `pop_front`. -/
def fetch (m : FifoTaskManager α) : Option α × FifoTaskManager α :=
  let m1 : FifoTaskManager α :=
    if m.sum != 0 then { m with sum := m.sum - 1 } else m
  match m1.ready_queue with
  | [] => (none, m1)
  | t :: rest => (some t, { m1 with ready_queue := rest })

/-- `TaskManager::get_task_sum_in_ready`. -/
def get_task_sum_in_ready (m : FifoTaskManager α) : Nat := m.sum

end FifoTaskManager

/-!
## `sys_fork` and `sys_set_priority`
-/

/-- Modelled from the spec: the trap context ("saved user-mode register
state"); only the general-purpose register file `x` matters here, with
`x[10]` the return-value register. -/
structure TrapContext where
  x : List Nat
deriving DecidableEq, Repr, Inhabited

/-- The fields of the ch5 PCB that `sys_fork` touches: pid, trap context,
and the scheduling status. -/
structure PCB where
  pid : Nat
  status : TaskStatus
  trap_cx : TrapContext
deriving DecidableEq, Repr, Inhabited

/-- Modelled from the spec: `TaskControlBlock::fork` (`os/src/task/task.rs`,
not shown) — deep-copies the parent's address space and trap context into a
child PCB with a freshly allocated pid and status `Ready`; it cannot fail
("frame exhaustion is an unmodeled fatal condition").  `newPid` is the pid
the allocator hands out. -/
def fork (parent : PCB) (newPid : Nat) : PCB :=
  { pid := newPid, status := TaskStatus.Ready, trap_cx := parent.trap_cx }

/-- `sys_fork` from `os/src/syscall/process.rs`: fork the current task,
force the child's saved `x[10]` to zero, add the child to the scheduler's
ready queue, and return the child's pid.  Returns the parent's syscall
result, the child PCB, and the updated ready queue. -/
def sys_fork (parent : PCB) (newPid : Nat) (mgr : FifoTaskManager PCB) :
    Int × PCB × FifoTaskManager PCB :=
  let new_task := fork parent newPid
  let new_task :=
    { new_task with trap_cx := { x := new_task.trap_cx.x.set 10 0 } }
  (Int.ofNat newPid, new_task, mgr.add new_task)

/-- The scheduling-relevant inner state touched by `sys_set_priority`. -/
structure TaskInnerPrio where
  task_priority : Int
deriving DecidableEq, Repr, Inhabited

/-- `sys_set_priority` from `os/src/syscall/process.rs`: reject
`prio <= 1` without touching the task; otherwise store the priority and
echo it back. -/
def sys_set_priority (prio : Int) (st : TaskInnerPrio) : Int × TaskInnerPrio :=
  if prio ≤ 1 then (-1, st)
  else (prio, { task_priority := prio })

/-- Predicate form of a VMA being in the FIFO invariant is below; here: the
invariant of the FIFO task manager, `sum` equals the queue length. -/
def fifoInv (m : FifoTaskManager α) : Prop := m.sum = m.ready_queue.length

instance (m : FifoTaskManager α) : Decidable (fifoInv m) := by
  unfold fifoInv; infer_instance

/-!
## Helper lemmas about the page-table model
-/

theorem translate_ptMap (pt : PageTable) (v b w : Nat) :
    translate (ptMap pt v b) w = if w = v then some b else translate pt w := by
  induction pt with
  | nil =>
      by_cases h : w = v
      · simp [ptMap, translate, h]
      · have hvw : ¬ v = w := fun hh => h hh.symm
        simp [ptMap, translate, h, hvw]
  | cons p rest ih =>
      by_cases hp : p.1 = v
      · by_cases h : w = v
        · simp [ptMap, if_pos hp, translate, h]
        · have hvw : ¬ v = w := fun hh => h hh.symm
          have hpw : ¬ p.1 = w := by rw [hp]; exact hvw
          simp [ptMap, if_pos hp, translate, h, hpw, hvw]
      · by_cases h : w = p.1
        · have hwv : ¬ w = v := fun hh => hp (h ▸ hh)
          simp [ptMap, if_neg hp, translate, h.symm, hwv]
        · have hpw : ¬ p.1 = w := fun hh => h hh.symm
          simp only [ptMap, if_neg hp, translate, if_neg hpw]
          exact ih

theorem translate_ptUnmap (pt : PageTable) (v w : Nat) :
    translate (ptUnmap pt v) w = if w = v then none else translate pt w := by
  induction pt with
  | nil => simp [ptUnmap, translate]
  | cons p rest ih =>
      by_cases hp : p.1 = v
      · by_cases h : w = v
        · simpa [ptUnmap, if_pos hp, h] using ih
        · have hvw : ¬ v = w := fun hh => h hh.symm
          have hpw : ¬ p.1 = w := by rw [hp]; exact hvw
          rw [ptUnmap, if_pos hp, ih]
          simp [translate, h, hpw]
      · by_cases h : w = p.1
        · have hwv : ¬ w = v := fun hh => hp (h ▸ hh)
          simp [ptUnmap, if_neg hp, translate, h.symm, hwv]
        · have hpw : ¬ p.1 = w := fun hh => h hh.symm
          simp only [ptUnmap, if_neg hp, translate, if_neg hpw]
          exact ih

theorem translate_foldl_ptMap (b : Nat) (vs : List Nat) :
    ∀ (pt : PageTable) (w : Nat),
      translate (vs.foldl (fun acc v => ptMap acc v b) pt) w
        = if w ∈ vs then some b else translate pt w := by
  induction vs with
  | nil => intro pt w; simp
  | cons v rest ih =>
      intro pt w
      simp only [List.foldl_cons]
      rw [ih]
      by_cases hw : w ∈ rest
      · simp [hw]
      · by_cases hv : w = v
        · subst hv; simp [hw, translate_ptMap]
        · simp [hw, hv, translate_ptMap]

theorem translate_foldl_ptUnmap (vs : List Nat) :
    ∀ (pt : PageTable) (w : Nat),
      translate (vs.foldl (fun acc v => ptUnmap acc v) pt) w
        = if w ∈ vs then none else translate pt w := by
  induction vs with
  | nil => intro pt w; simp
  | cons v rest ih =>
      intro pt w
      simp only [List.foldl_cons]
      rw [ih]
      by_cases hw : w ∈ rest
      · simp [hw]
      · by_cases hv : w = v
        · subst hv; simp [hw, translate_ptUnmap]
        · simp [hw, hv, translate_ptUnmap]

theorem translate_eq_none_iff (pt : PageTable) (v : Nat) :
    translate pt v = none ↔ ∀ p ∈ pt, p.1 ≠ v := by
  induction pt with
  | nil => simp [translate]
  | cons p rest ih =>
      by_cases hp : p.1 = v
      · simp [translate, hp]
      · simp [translate, hp, ih]

theorem mem_ptUnmap (l : PageTable) (v : Nat) (p : Nat × Nat)
    (h : p ∈ ptUnmap l v) : p ∈ l ∧ p.1 ≠ v := by
  induction l with
  | nil => simp [ptUnmap] at h
  | cons q rest ih =>
      by_cases hq : q.1 = v
      · rw [ptUnmap, if_pos hq] at h
        rcases ih h with ⟨h1, h2⟩
        exact ⟨List.mem_cons_of_mem _ h1, h2⟩
      · rw [ptUnmap, if_neg hq] at h
        rcases List.mem_cons.mp h with h1 | h1
        · subst h1
          exact ⟨List.mem_cons_self _ _, hq⟩
        · rcases ih h1 with ⟨h2, h3⟩
          exact ⟨List.mem_cons_of_mem _ h2, h3⟩

theorem ptUnmap_of_no_key (l : PageTable) (v : Nat)
    (h : ∀ p ∈ l, p.1 ≠ v) : ptUnmap l v = l := by
  induction l with
  | nil => rfl
  | cons q rest ih =>
      have hq : ¬ q.1 = v := h q (List.mem_cons_self q rest)
      rw [ptUnmap, if_neg hq, ih (fun p hp => h p (List.mem_cons_of_mem _ hp))]

theorem foldl_ptUnmap_of_disjoint (vs : List Nat) :
    ∀ (l : PageTable), (∀ p ∈ l, p.1 ∉ vs) →
      vs.foldl (fun acc x => ptUnmap acc x) l = l := by
  induction vs with
  | nil => intro l _; rfl
  | cons v rest ih =>
      intro l hl
      simp only [List.foldl_cons]
      rw [ptUnmap_of_no_key l v
        (fun p hp hv => hl p hp (hv ▸ List.mem_cons_self v rest))]
      exact ih l (fun p hp hv => hl p hp (List.mem_cons_of_mem _ hv))

theorem foldl_ptUnmap_nil_of_keys_sub (vs : List Nat) :
    ∀ (l : PageTable), (∀ p ∈ l, p.1 ∈ vs) →
      vs.foldl (fun acc x => ptUnmap acc x) l = [] := by
  induction vs with
  | nil =>
      intro l hl
      cases l with
      | nil => rfl
      | cons p rest => exact absurd (hl p (List.mem_cons_self p rest)) (by simp)
  | cons v rest ih =>
      intro l hl
      simp only [List.foldl_cons]
      refine ih (ptUnmap l v) ?_
      intro p hp
      rcases mem_ptUnmap l v p hp with ⟨h1, h2⟩
      rcases List.mem_cons.mp (hl p h1) with h3 | h3
      · exact absurd h3 h2
      · exact h3

theorem ptUnmap_append (l1 l2 : PageTable) (v : Nat) :
    ptUnmap (l1 ++ l2) v = ptUnmap l1 v ++ ptUnmap l2 v := by
  induction l1 with
  | nil => rfl
  | cons q rest ih =>
      by_cases hq : q.1 = v
      · simp [ptUnmap, hq, ih]
      · simp [ptUnmap, hq, ih]

theorem foldl_ptUnmap_append (vs : List Nat) :
    ∀ (l1 l2 : PageTable),
      vs.foldl (fun acc x => ptUnmap acc x) (l1 ++ l2)
        = vs.foldl (fun acc x => ptUnmap acc x) l1
          ++ vs.foldl (fun acc x => ptUnmap acc x) l2 := by
  induction vs with
  | nil => intro l1 l2; rfl
  | cons v rest ih =>
      intro l1 l2
      simp only [List.foldl_cons, ptUnmap_append]
      exact ih _ _

theorem ptMap_of_no_key (l : PageTable) (v b : Nat)
    (h : ∀ p ∈ l, p.1 ≠ v) : ptMap l v b = l ++ [(v, b)] := by
  induction l with
  | nil => rfl
  | cons q rest ih =>
      have hq : ¬ q.1 = v := h q (List.mem_cons_self q rest)
      rw [ptMap, if_neg hq, ih (fun p hp => h p (List.mem_cons_of_mem _ hp))]
      rfl

theorem foldl_ptMap_eq_append (b : Nat) (vs : List Nat) :
    ∀ (pt : PageTable), vs.Nodup → (∀ v ∈ vs, ∀ p ∈ pt, p.1 ≠ v) →
      vs.foldl (fun acc v => ptMap acc v b) pt
        = pt ++ vs.map (fun v => (v, b)) := by
  induction vs with
  | nil => intro pt _ _; simp
  | cons v rest ih =>
      intro pt hnd habs
      simp only [List.foldl_cons]
      rw [ptMap_of_no_key pt v b (habs v (List.mem_cons_self v rest))]
      rw [ih (pt ++ [(v, b)]) (List.Nodup.of_cons hnd) ?_]
      · simp
      · intro u hu p hp
        rcases List.mem_append.mp hp with h1 | h1
        · exact habs u (List.mem_cons_of_mem _ hu) p h1
        · have hpv : p = (v, b) := by simpa using h1
          subst hpv
          intro hc
          exact (List.nodup_cons.mp hnd).1 (by rw [show v = u from hc]; exact hu)

theorem mem_rangeVpns (s e w : Nat) : w ∈ rangeVpns s e ↔ s ≤ w ∧ w < e := by
  unfold rangeVpns
  constructor
  · rintro hm
    rcases List.mem_map.mp hm with ⟨k, hk, rfl⟩
    have hk' := List.mem_range.mp hk
    omega
  · rintro ⟨h1, h2⟩
    refine List.mem_map.mpr ⟨w - s, ?_, by omega⟩
    exact List.mem_range.mpr (by omega)

theorem rangeVpns_nodup (s e : Nat) : (rangeVpns s e).Nodup := by
  unfold rangeVpns
  exact (List.nodup_range (e - s)).map (fun a b h => by omega)

/-!
## Helper lemmas about lists and the search loops
-/

theorem listGetD_append_length (l : List α) (a d : α) :
    (l ++ [a]).getD l.length d = a := by
  induction l with
  | nil => rfl
  | cons x rest ih => simp only [List.cons_append, List.length_cons, List.getD_cons_succ]; exact ih

theorem listEraseIdx_append_length (l : List α) (a : α) :
    (l ++ [a]).eraseIdx l.length = l := by
  induction l with
  | nil => rfl
  | cons x rest ih => simpa [List.eraseIdx] using ih

theorem listGetD_set_self (l : List α) (i : Nat) (x d : α) (h : i < l.length) :
    (l.set i x).getD i d = x := by
  induction l generalizing i with
  | nil => simp at h
  | cons y rest ih =>
      cases i with
      | zero => rfl
      | succ n => simpa using ih n (by simpa using h)

theorem listGetD_set_ne (l : List α) (i j : Nat) (x d : α) (h : i ≠ j) :
    (l.set i x).getD j d = l.getD j d := by
  induction l generalizing i j with
  | nil => simp
  | cons y rest ih =>
      cases i with
      | zero =>
          cases j with
          | zero => exact absurd rfl h
          | succ m => rfl
      | succ n =>
          cases j with
          | zero => rfl
          | succ m => simpa using ih n m (fun hh => h (by rw [hh]))

theorem listGetD_of_length_le (l : List α) (i : Nat) (d : α)
    (h : l.length ≤ i) : l.getD i d = d := by
  induction l generalizing i with
  | nil => cases i <;> rfl
  | cons y rest ih =>
      cases i with
      | zero => simp at h
      | succ n => simpa using ih n (by simpa using h)

theorem munmapFindAux_of_no_match (s e : Nat) (areas : List MapArea)
    (h : ∀ a ∈ areas, ¬(a.vpnStart = s ∧ a.vpnEnd = e)) :
    ∀ (i : Nat) (acc : Option Nat), munmapFindAux areas s e i acc = acc := by
  induction areas with
  | nil => intro i acc; rfl
  | cons a rest ih =>
      intro i acc
      have ha := h a (List.mem_cons_self a rest)
      have hb : (a.vpnStart == s && a.vpnEnd == e) = false := by
        rcases Decidable.em (a.vpnStart = s) with h1 | h1
        · rcases Decidable.em (a.vpnEnd = e) with h2 | h2
          · exact absurd ⟨h1, h2⟩ ha
          · simp [h2]
        · simp [h1]
      rw [munmapFindAux, hb]
      simp only [Bool.false_eq_true, if_false]
      exact ih (fun b hb2 => h b (List.mem_cons_of_mem _ hb2)) (i + 1) acc

theorem munmapFindAux_acc_some (s e : Nat) (areas : List MapArea) :
    ∀ (i j : Nat), (munmapFindAux areas s e i (some j)).isSome = true := by
  induction areas with
  | nil => intro i j; rfl
  | cons a rest ih =>
      intro i j
      rw [munmapFindAux]
      by_cases hb : (a.vpnStart == s && a.vpnEnd == e) = true
      · rw [if_pos hb]; exact ih (i + 1) i
      · rw [if_neg hb]; exact ih (i + 1) j

theorem munmapFindAux_isSome_of_match (s e : Nat) (areas : List MapArea)
    (h : ∃ a ∈ areas, a.vpnStart = s ∧ a.vpnEnd = e) :
    ∀ (i : Nat) (acc : Option Nat), (munmapFindAux areas s e i acc).isSome = true := by
  induction areas with
  | nil => rcases h with ⟨a, ha, _⟩; simp at ha
  | cons a rest ih =>
      intro i acc
      rw [munmapFindAux]
      rcases h with ⟨b, hb, hbm⟩
      rcases List.mem_cons.mp hb with h1 | h1
      · subst h1
        have : (b.vpnStart == s && b.vpnEnd == e) = true := by
          simp [hbm.1, hbm.2]
        rw [if_pos this]
        exact munmapFindAux_acc_some s e rest (i + 1) i
      · by_cases hc : (a.vpnStart == s && a.vpnEnd == e) = true
        · rw [if_pos hc]
          exact munmapFindAux_acc_some s e rest (i + 1) i
        · rw [if_neg hc]
          exact ih ⟨b, h1, hbm⟩ (i + 1) acc

theorem munmapFindAux_some_cases (s e : Nat) (areas : List MapArea) :
    ∀ (i : Nat) (acc : Option Nat) (id : Nat),
      munmapFindAux areas s e i acc = some id →
      acc = some id ∨
        ∃ k, k < areas.length ∧ id = i + k ∧
          (areas.getD k default).vpnStart = s ∧ (areas.getD k default).vpnEnd = e := by
  induction areas with
  | nil =>
      intro i acc id h
      exact Or.inl h
  | cons a rest ih =>
      intro i acc id h
      rw [munmapFindAux] at h
      by_cases hb : (a.vpnStart == s && a.vpnEnd == e) = true
      · rw [if_pos hb] at h
        have hb' : a.vpnStart = s ∧ a.vpnEnd = e := by
          simpa [Bool.and_eq_true, beq_iff_eq] using hb
        have hm1 : a.vpnStart = s := hb'.1
        have hm2 : a.vpnEnd = e := hb'.2
        rcases ih (i + 1) (some i) id h with h1 | h1
        · injection h1 with hid
          refine Or.inr ⟨0, by simp, by omega, ?_, ?_⟩
          · simpa using hm1
          · simpa using hm2
        · rcases h1 with ⟨k, hk1, hk2, hk3, hk4⟩
          exact Or.inr ⟨k + 1, by simpa using hk1, by omega, by simpa using hk3,
            by simpa using hk4⟩
      · rw [if_neg hb] at h
        rcases ih (i + 1) acc id h with h1 | h1
        · exact Or.inl h1
        · rcases h1 with ⟨k, hk1, hk2, hk3, hk4⟩
          exact Or.inr ⟨k + 1, by simpa using hk1, by omega, by simpa using hk3,
            by simpa using hk4⟩

theorem munmapFindAux_append_match (s e : Nat) (a : MapArea)
    (h1 : a.vpnStart = s) (h2 : a.vpnEnd = e) (l : List MapArea) :
    ∀ (i : Nat) (acc : Option Nat),
      munmapFindAux (l ++ [a]) s e i acc = some (i + l.length) := by
  induction l with
  | nil =>
      intro i acc
      rw [List.nil_append, munmapFindAux, if_pos (by simp [h1, h2])]
      rfl
  | cons b rest ih =>
      intro i acc
      rw [List.cons_append, munmapFindAux]
      by_cases hb : (b.vpnStart == s && b.vpnEnd == e) = true
      · rw [if_pos hb, ih]
        simp [Nat.add_comm, Nat.add_assoc, Nat.add_left_comm]
      · rw [if_neg hb, ih]
        simp [Nat.add_comm, Nat.add_assoc, Nat.add_left_comm]

theorem listGetD_mem (l : List α) (i : Nat) (d : α) (h : i < l.length) :
    l.getD i d ∈ l := by
  induction l generalizing i with
  | nil => simp at h
  | cons a rest ih =>
      cases i with
      | zero => exact List.mem_cons_self a rest
      | succ n =>
          simp only [List.getD_cons_succ]
          exact List.mem_cons_of_mem _ (ih n (by simpa using h))

theorem findFirstIdx_eq_none (p : α → Bool) (l : List α)
    (h : ∀ x ∈ l, p x = false) : findFirstIdx p l = none := by
  induction l with
  | nil => rfl
  | cons a rest ih =>
      have ha : p a = false := h a (List.mem_cons_self a rest)
      rw [findFirstIdx, if_neg (by simp [ha]),
        ih (fun x hx => h x (List.mem_cons_of_mem _ hx))]
      rfl

theorem findFirstIdx_first (p : α → Bool) (d : α) (l : List α) :
    ∀ (idx : Nat), idx < l.length → p (l.getD idx d) = true →
      (∀ j, j < idx → p (l.getD j d) = false) →
      findFirstIdx p l = some idx := by
  induction l with
  | nil => intro idx h; simp at h
  | cons a rest ih =>
      intro idx hlen hp hfirst
      cases idx with
      | zero =>
          simp only [List.getD_cons_zero] at hp
          rw [findFirstIdx, if_pos hp]
      | succ n =>
          have ha : p a = false := by
            simpa using hfirst 0 (Nat.succ_pos n)
          rw [findFirstIdx, if_neg (by simp [ha])]
          rw [ih n (by simpa using hlen) (by simpa using hp)
            (fun j hj => by simpa using hfirst (j + 1) (by omega))]
          rfl

theorem find_next_task_spec (num_app : Nat) (inn : TaskManagerInner) (next : Nat)
    (h : find_next_task num_app inn = some next) :
    next < num_app ∧ (inn.tasks.getD next default).task_status = TaskStatus.Ready := by
  unfold find_next_task at h
  have hmem := List.mem_of_find?_eq_some h
  have hpred := List.find?_some h
  constructor
  · rcases List.mem_map.mp hmem with ⟨k, hk, hke⟩
    have hpos : 0 < num_app := by
      rcases Nat.eq_zero_or_pos num_app with h0 | h0
      · subst h0; simp at hk
      · exact h0
    rw [← hke]
    exact Nat.mod_lt _ hpos
  · simpa using hpred

theorem run_next_task_cases (num_app now : Nat) (st st2 : TaskManagerInner)
    (h : run_next_task num_app now st = some st2) :
    ∃ next, find_next_task num_app st = some next ∧
      st2 = ⟨st.tasks.set next
              { st.tasks.getD next default with
                  task_status := TaskStatus.Running, start_time := now },
            next⟩ := by
  unfold run_next_task at h
  cases hfind : find_next_task num_app st with
  | none => rw [hfind] at h; cases h
  | some next =>
      rw [hfind] at h
      injection h with h2
      exact ⟨next, rfl, h2.symm⟩

theorem run_next_task_facts (now : Nat) (st st2 : TaskManagerInner)
    (h : run_next_task st.tasks.length now st = some st2) :
    st2.current_task < st.tasks.length ∧
    (st.tasks.getD st2.current_task default).task_status = TaskStatus.Ready ∧
    (st2.tasks.getD st2.current_task default).task_status = TaskStatus.Running ∧
    (st2.tasks.getD st2.current_task default).start_time = now ∧
    (∀ j, j ≠ st2.current_task → st2.tasks.getD j default = st.tasks.getD j default) := by
  rcases run_next_task_cases st.tasks.length now st st2 h with ⟨next, hfind, hst2⟩
  rcases find_next_task_spec st.tasks.length st next hfind with ⟨hlt, hready⟩
  subst hst2
  refine ⟨hlt, hready, ?_, ?_, ?_⟩
  · rw [listGetD_set_self _ _ _ _ hlt]
  · rw [listGetD_set_self _ _ _ _ hlt]
  · intro j hj
    exact listGetD_set_ne _ _ _ _ _ (fun hh => hj hh.symm)

/-!
## Helper lemmas about `sys_mmap` and `sys_munmap`
-/

theorem sys_mmap_unaligned (start len port : Nat) (ms : MemorySet)
    (h : ¬ start % PAGE_SIZE = 0) : sys_mmap start len port ms = (-1, ms) := by
  rw [sys_mmap, if_pos (by simpa using h)]

theorem sys_mmap_bad_port (start len port : Nat) (ms : MemorySet)
    (h : ¬ (port = 1 ∨ port = 2 ∨ port = 3)) :
    sys_mmap start len port ms = (-1, ms) := by
  have h1 : ¬ port = 1 := fun hh => h (Or.inl hh)
  have h2 : ¬ port = 2 := fun hh => h (Or.inr (Or.inl hh))
  have h3 : ¬ port = 3 := fun hh => h (Or.inr (Or.inr hh))
  rw [sys_mmap]
  by_cases ha : (start % PAGE_SIZE != 0) = true
  · rw [if_pos ha]
  · rw [if_neg ha, if_pos (by simp [h1, h2, h3])]

theorem sys_mmap_conflict (start len port : Nat) (ms : MemorySet)
    (h : ∃ vpn ∈ rangeVpns (floorVpn start) (ceilVpn (start + len)),
          vpnMapped ms vpn = true) :
    sys_mmap start len port ms = (-1, ms) := by
  rw [sys_mmap]
  by_cases ha : (start % PAGE_SIZE != 0) = true
  · rw [if_pos ha]
  · rw [if_neg ha]
    by_cases hp : (port != 1 && port != 2 && port != 3) = true
    · rw [if_pos hp]
    · rw [if_neg hp]
      rcases h with ⟨vpn, hmem, hmap⟩
      rw [if_pos (List.any_eq_true.mpr ⟨vpn, hmem, hmap⟩)]

theorem sys_mmap_success (start len port : Nat) (ms : MemorySet)
    (h1 : start % PAGE_SIZE = 0) (h2 : port = 1 ∨ port = 2 ∨ port = 3)
    (h3 : ∀ vpn ∈ rangeVpns (floorVpn start) (ceilVpn (start + len)),
            vpnMapped ms vpn = false) :
    sys_mmap start len port ms
      = (0, insert_framed_area ms start (start + len) (mmapPerm port)) := by
  rw [sys_mmap, if_neg (by simp [h1])]
  have hp : (port != 1 && port != 2 && port != 3) = false := by
    rcases h2 with rfl | rfl | rfl <;> rfl
  rw [if_neg (by simp [hp])]
  rw [if_neg (by
    intro hc
    rcases List.any_eq_true.mp hc with ⟨vpn, hmem, hmap⟩
    rw [h3 vpn hmem] at hmap
    exact Bool.false_ne_true hmap)]

theorem insert_framed_area_translate_in_range (ms : MemorySet)
    (startVa endVa perm vpn : Nat)
    (h : vpn ∈ rangeVpns (floorVpn startVa) (ceilVpn endVa)) :
    translate (insert_framed_area ms startVa endVa perm).page_table vpn
      = some (pteBits perm) := by
  show translate (areaMap ⟨floorVpn startVa, ceilVpn endVa, perm⟩ ms.page_table) vpn
      = some (pteBits perm)
  rw [areaMap, translate_foldl_ptMap]
  exact if_pos h

/-- Claim C1 witnesses `mmapPerm`'s user bit; the bit position of `U` in
`MapPermission` is 4. -/
theorem mmapPerm_user_bit (port : Nat) : Nat.testBit (mmapPerm port) 4 = true := by
  rw [mmapPerm, Nat.testBit_or, show Nat.testBit 16 4 = true from rfl, Bool.or_true]

theorem sys_munmap_unaligned (start len : Nat) (ms : MemorySet)
    (h : ¬ start % PAGE_SIZE = 0) : sys_munmap start len ms = (-1, ms) := by
  rw [sys_munmap, if_pos (by simpa using h)]

theorem sys_munmap_no_match (start len : Nat) (ms : MemorySet)
    (h : ∀ a ∈ ms.areas,
          ¬(a.vpnStart = floorVpn start ∧ a.vpnEnd = ceilVpn (start + len))) :
    sys_munmap start len ms = (-1, ms) := by
  by_cases ha : (start % PAGE_SIZE != 0) = true
  · rw [sys_munmap, if_pos ha]
  · simp only [sys_munmap, if_neg ha]
    rw [munmapFindAux_of_no_match _ _ ms.areas h 0 none]

theorem sys_munmap_success (start len : Nat) (ms : MemorySet) (id : Nat)
    (halign : start % PAGE_SIZE = 0)
    (hfind : munmapFindAux ms.areas (floorVpn start) (ceilVpn (start + len)) 0 none
              = some id) :
    sys_munmap start len ms
      = (0, { page_table := areaUnmap (ms.areas.getD id default) ms.page_table,
              areas := ms.areas.eraseIdx id }) := by
  simp only [sys_munmap, if_neg (by simp [halign] : ¬ (start % PAGE_SIZE != 0) = true)]
  rw [hfind]

theorem areaUnmap_translate_in_range (a : MapArea) (pt : PageTable) (vpn : Nat)
    (h : vpn ∈ rangeVpns a.vpnStart a.vpnEnd) :
    translate (areaUnmap a pt) vpn = none := by
  rw [areaUnmap, translate_foldl_ptUnmap]
  exact if_pos h

/-!
## Claim theorems
-/

/-- Claim C1: for every call `mmap(start, len, port)`, the call returns −1
when `start` is not page-aligned, or when `port` is not one of 1, 2, 3, or
when any virtual page of `[floor(start), ceil(start + len))` is already
mapped; otherwise it inserts a framed VMA covering that range whose
permission is the requested bits plus the user-accessible bit (bit 4) and
returns 0, mapping every page of the range. -/
theorem sys_mmap_claim (start len port : Nat) (ms : MemorySet) :
    (¬ start % PAGE_SIZE = 0 → sys_mmap start len port ms = (-1, ms)) ∧
    (¬ (port = 1 ∨ port = 2 ∨ port = 3) → sys_mmap start len port ms = (-1, ms)) ∧
    ((∃ vpn ∈ rangeVpns (floorVpn start) (ceilVpn (start + len)),
        vpnMapped ms vpn = true) →
      sys_mmap start len port ms = (-1, ms)) ∧
    (start % PAGE_SIZE = 0 → (port = 1 ∨ port = 2 ∨ port = 3) →
      (∀ vpn ∈ rangeVpns (floorVpn start) (ceilVpn (start + len)),
        vpnMapped ms vpn = false) →
      (sys_mmap start len port ms).1 = 0 ∧
      (sys_mmap start len port ms).2.areas
        = ms.areas ++ [⟨floorVpn start, ceilVpn (start + len), mmapPerm port⟩] ∧
      Nat.testBit (mmapPerm port) 4 = true ∧
      ∀ vpn ∈ rangeVpns (floorVpn start) (ceilVpn (start + len)),
        translate (sys_mmap start len port ms).2.page_table vpn
          = some (pteBits (mmapPerm port))) := by
  refine ⟨sys_mmap_unaligned start len port ms,
          sys_mmap_bad_port start len port ms,
          sys_mmap_conflict start len port ms, ?_⟩
  intro h1 h2 h3
  rw [sys_mmap_success start len port ms h1 h2 h3]
  refine ⟨rfl, rfl, mmapPerm_user_bit port, ?_⟩
  intro vpn hvpn
  exact insert_framed_area_translate_in_range ms start (start + len) (mmapPerm port) vpn hvpn

/-- Witness for C1: the four cases at concrete inputs (unaligned start,
invalid port, conflicting page, and a successful two-page mapping). -/
theorem sys_mmap_claim_witness :
    sys_mmap 5 100 3 ⟨[], []⟩ = (-1, ⟨[], []⟩) ∧
    sys_mmap 4096 100 7 ⟨[], []⟩ = (-1, ⟨[], []⟩) ∧
    sys_mmap 4096 100 3 ⟨[(1, 23)], [⟨1, 2, 22⟩]⟩
      = (-1, ⟨[(1, 23)], [⟨1, 2, 22⟩]⟩) ∧
    (sys_mmap 4096 100 3 ⟨[], []⟩).1 = 0 := by
  refine ⟨?_, ?_, ?_, ?_⟩
  · exact (sys_mmap_claim 5 100 3 ⟨[], []⟩).1 (by decide)
  · exact (sys_mmap_claim 4096 100 7 ⟨[], []⟩).2.1 (by decide)
  · exact (sys_mmap_claim 4096 100 3 ⟨[(1, 23)], [⟨1, 2, 22⟩]⟩).2.2.1
      ⟨1, by decide, by decide⟩
  · exact ((sys_mmap_claim 4096 100 3 ⟨[], []⟩).2.2.2 (by decide) (by decide)
      (by decide)).1

/-- Claim C2: `munmap(start, len)` returns −1 when `start` is unaligned or
when no VMA's bounds exactly equal the derived page range, and in every
failure case the VMA list (indeed the whole address space) is unchanged;
otherwise it unmaps every page-table entry of the matching VMA, removes
that VMA record, and returns 0. -/
theorem sys_munmap_claim (start len : Nat) (ms : MemorySet) :
    (¬ start % PAGE_SIZE = 0 → sys_munmap start len ms = (-1, ms)) ∧
    ((∀ a ∈ ms.areas,
        ¬(a.vpnStart = floorVpn start ∧ a.vpnEnd = ceilVpn (start + len))) →
      sys_munmap start len ms = (-1, ms)) ∧
    ((sys_munmap start len ms).1 = -1 → (sys_munmap start len ms).2 = ms) ∧
    (start % PAGE_SIZE = 0 →
      (∃ a ∈ ms.areas,
        a.vpnStart = floorVpn start ∧ a.vpnEnd = ceilVpn (start + len)) →
      (sys_munmap start len ms).1 = 0 ∧
      ∃ id, id < ms.areas.length ∧
        (ms.areas.getD id default).vpnStart = floorVpn start ∧
        (ms.areas.getD id default).vpnEnd = ceilVpn (start + len) ∧
        (sys_munmap start len ms).2.areas = ms.areas.eraseIdx id ∧
        ∀ vpn ∈ rangeVpns (floorVpn start) (ceilVpn (start + len)),
          translate (sys_munmap start len ms).2.page_table vpn = none) := by
  refine ⟨sys_munmap_unaligned start len ms, sys_munmap_no_match start len ms, ?_, ?_⟩
  · intro hfail
    by_cases ha : start % PAGE_SIZE = 0
    · cases hfind : munmapFindAux ms.areas (floorVpn start) (ceilVpn (start + len)) 0 none with
      | none =>
          rw [sys_munmap_no_match start len ms ?_]
          · intro a hmem hconj
            have := munmapFindAux_isSome_of_match (floorVpn start)
              (ceilVpn (start + len)) ms.areas ⟨a, hmem, hconj⟩ 0 none
            rw [hfind] at this
            exact Bool.false_ne_true this
      | some id =>
          rw [sys_munmap_success start len ms id ha hfind] at hfail
          simp at hfail
    · rw [sys_munmap_unaligned start len ms ha]
  · intro halign hmatch
    have hsome := munmapFindAux_isSome_of_match (floorVpn start)
      (ceilVpn (start + len)) ms.areas hmatch 0 none
    rcases Option.isSome_iff_exists.mp hsome with ⟨id, hfind⟩
    rcases munmapFindAux_some_cases (floorVpn start) (ceilVpn (start + len))
        ms.areas 0 none id hfind with hc | hc
    · exact absurd hc (by simp)
    · rcases hc with ⟨k, hk1, hk2, hk3, hk4⟩
      have hidk : id = k := by omega
      subst hidk
      rw [sys_munmap_success start len ms id halign hfind]
      refine ⟨rfl, id, hk1, hk3, hk4, rfl, ?_⟩
      intro vpn hvpn
      refine areaUnmap_translate_in_range _ ms.page_table vpn ?_
      rw [hk3, hk4]
      exact hvpn

/-- Witness for C2: the cases at concrete inputs over an address space with
one mapped page. -/
theorem sys_munmap_claim_witness :
    sys_munmap 5 0 ⟨[(1, 23)], [⟨1, 2, 22⟩]⟩ = (-1, ⟨[(1, 23)], [⟨1, 2, 22⟩]⟩) ∧
    sys_munmap 8192 4096 ⟨[(1, 23)], [⟨1, 2, 22⟩]⟩
      = (-1, ⟨[(1, 23)], [⟨1, 2, 22⟩]⟩) ∧
    (sys_munmap 5 0 ⟨[(1, 23)], [⟨1, 2, 22⟩]⟩).2 = ⟨[(1, 23)], [⟨1, 2, 22⟩]⟩ ∧
    (sys_munmap 4096 4096 ⟨[(1, 23)], [⟨1, 2, 22⟩]⟩).1 = 0 := by
  refine ⟨?_, ?_, ?_, ?_⟩
  · exact (sys_munmap_claim 5 0 ⟨[(1, 23)], [⟨1, 2, 22⟩]⟩).1 (by decide)
  · exact (sys_munmap_claim 8192 4096 ⟨[(1, 23)], [⟨1, 2, 22⟩]⟩).2.1 (by decide)
  · exact (sys_munmap_claim 5 0 ⟨[(1, 23)], [⟨1, 2, 22⟩]⟩).2.2.1 (by decide)
  · exact ((sys_munmap_claim 4096 4096 ⟨[(1, 23)], [⟨1, 2, 22⟩]⟩).2.2.2 (by decide)
      ⟨⟨1, 2, 22⟩, by decide, by decide, by decide⟩).1

/-- Claim C5: whenever `mmap(start, len, port)` fails because some page of
the requested range is already mapped, it returns −1 with the address
space completely unchanged: no VMA is added and no page translation
changes. -/
theorem sys_mmap_conflict_unchanged (start len port : Nat) (ms : MemorySet)
    (_halign : start % PAGE_SIZE = 0) (_hport : port = 1 ∨ port = 2 ∨ port = 3)
    (hmapped : ∃ vpn ∈ rangeVpns (floorVpn start) (ceilVpn (start + len)),
                vpnMapped ms vpn = true) :
    sys_mmap start len port ms = (-1, ms) ∧
    (sys_mmap start len port ms).2.areas = ms.areas ∧
    ∀ vpn, translate (sys_mmap start len port ms).2.page_table vpn
            = translate ms.page_table vpn := by
  have h := sys_mmap_conflict start len port ms hmapped
  rw [h]
  exact ⟨rfl, rfl, fun vpn => rfl⟩

/-- Witness for C5: a conflicting `mmap` over a one-page address space. -/
theorem sys_mmap_conflict_unchanged_witness :
    sys_mmap 4096 100 3 ⟨[(1, 23)], [⟨1, 2, 22⟩]⟩
      = (-1, ⟨[(1, 23)], [⟨1, 2, 22⟩]⟩) := by
  exact (sys_mmap_conflict_unchanged 4096 100 3 ⟨[(1, 23)], [⟨1, 2, 22⟩]⟩
    (by decide) (by decide) ⟨1, by decide, by decide⟩).1

/-- Claim C4: for every page-aligned `start`, length `len` and valid `port`
such that every page of the derived range is free, `mmap(start, len, port)`
followed by `munmap(start, len)` restores the address space to its
pre-`mmap` state: the resulting `MemorySet` (VMA list and page-table
mapping state) is structurally equal to the original. -/
theorem mmap_munmap_roundtrip (start len port : Nat) (ms : MemorySet)
    (halign : start % PAGE_SIZE = 0) (hport : port = 1 ∨ port = 2 ∨ port = 3)
    (hfree : ∀ vpn ∈ rangeVpns (floorVpn start) (ceilVpn (start + len)),
              translate ms.page_table vpn = none) :
    (sys_mmap start len port ms).1 = 0 ∧
    sys_munmap start len (sys_mmap start len port ms).2 = (0, ms) := by
  have hfree' : ∀ vpn ∈ rangeVpns (floorVpn start) (ceilVpn (start + len)),
      vpnMapped ms vpn = false := by
    intro vpn h
    rw [vpnMapped, hfree vpn h]
  rw [sys_mmap_success start len port ms halign hport hfree']
  refine ⟨rfl, ?_⟩
  have hareas : (insert_framed_area ms start (start + len) (mmapPerm port)).areas
      = ms.areas ++ [⟨floorVpn start, ceilVpn (start + len), mmapPerm port⟩] := rfl
  have hpt : (insert_framed_area ms start (start + len) (mmapPerm port)).page_table
      = ms.page_table
        ++ (rangeVpns (floorVpn start) (ceilVpn (start + len))).map
            (fun v => (v, pteBits (mmapPerm port))) := by
    show areaMap ⟨floorVpn start, ceilVpn (start + len), mmapPerm port⟩ ms.page_table = _
    rw [areaMap]
    exact foldl_ptMap_eq_append (pteBits (mmapPerm port)) _ ms.page_table
      (rangeVpns_nodup _ _)
      (fun v hv p hp => (translate_eq_none_iff ms.page_table v).mp (hfree v hv) p hp)
  have hfind : munmapFindAux
      (insert_framed_area ms start (start + len) (mmapPerm port)).areas
      (floorVpn start) (ceilVpn (start + len)) 0 none
      = some ms.areas.length := by
    rw [hareas]
    have := munmapFindAux_append_match (floorVpn start) (ceilVpn (start + len))
      ⟨floorVpn start, ceilVpn (start + len), mmapPerm port⟩ rfl rfl ms.areas 0 none
    simpa using this
  rw [sys_munmap_success start len _ ms.areas.length halign hfind]
  rw [Prod.mk.injEq]
  refine ⟨rfl, ?_⟩
  rw [hareas, hpt, listGetD_append_length, listEraseIdx_append_length]
  have hunmap :
      areaUnmap ⟨floorVpn start, ceilVpn (start + len), mmapPerm port⟩
        (ms.page_table
          ++ (rangeVpns (floorVpn start) (ceilVpn (start + len))).map
              (fun v => (v, pteBits (mmapPerm port))))
      = ms.page_table := by
    rw [areaUnmap]
    show (rangeVpns (floorVpn start) (ceilVpn (start + len))).foldl
        (fun acc v => ptUnmap acc v) _ = ms.page_table
    rw [foldl_ptUnmap_append]
    rw [foldl_ptUnmap_of_disjoint _ ms.page_table ?hdisj]
    case hdisj =>
      intro p hp hmem
      exact (translate_eq_none_iff ms.page_table p.1).mp (hfree p.1 hmem) p hp rfl
    rw [foldl_ptUnmap_nil_of_keys_sub _ _ ?hsub]
    case hsub =>
      intro p hp
      rcases List.mem_map.mp hp with ⟨v, hv, rfl⟩
      exact hv
    exact List.append_nil _
  rw [hunmap]

/-- Witness for C4: a two-page round trip on the empty address space. -/
theorem mmap_munmap_roundtrip_witness :
    (sys_mmap 4096 8192 3 ⟨[], []⟩).1 = 0 ∧
    sys_munmap 4096 8192 (sys_mmap 4096 8192 3 ⟨[], []⟩).2 = (0, ⟨[], []⟩) :=
  mmap_munmap_roundtrip 4096 8192 3 ⟨[], []⟩ (by decide) (by decide) (by decide)

/-- Claim C3: `waitpid(pid, exit_code_ptr)` returns −1 when no child
matches the filter (`pid = -1` matches any child, otherwise exact pid
match); returns −2 when some child matches but no matching child is a
`Zombie`; otherwise it picks the first matching `Zombie` child in
child-list order, removes it from the children list, writes its exit code
through the pointer, and returns its pid. -/
theorem sys_waitpid_claim (pid : Int) (children : List ChildPCB) :
    ((∀ c ∈ children, childMatches pid c = false) →
      sys_waitpid pid children = (-1, children, none)) ∧
    ((∃ c ∈ children, childMatches pid c = true) →
     (∀ c ∈ children, childMatches pid c = true → isZombie c = false) →
      sys_waitpid pid children = (-2, children, none)) ∧
    (∀ idx, idx < children.length →
      isZombie (children.getD idx default) = true →
      childMatches pid (children.getD idx default) = true →
      (∀ j, j < idx →
        (isZombie (children.getD j default)
          && childMatches pid (children.getD j default)) = false) →
      sys_waitpid pid children
        = (Int.ofNat (children.getD idx default).pid,
           children.eraseIdx idx,
           some (children.getD idx default).exit_code)) := by
  refine ⟨?_, ?_, ?_⟩
  · intro h
    have hany : children.any (fun c => childMatches pid c) = false :=
      List.any_eq_false.mpr (fun c hc => by simp [h c hc])
    rw [sys_waitpid, if_pos (by simp [hany])]
  · intro hex hnz
    have hany : children.any (fun c => childMatches pid c) = true := by
      rcases hex with ⟨c, hc, hm⟩
      exact List.any_eq_true.mpr ⟨c, hc, hm⟩
    rw [sys_waitpid, if_neg (by simp [hany])]
    have hfind : findFirstIdx (fun c => isZombie c && childMatches pid c) children
        = none := by
      refine findFirstIdx_eq_none _ children ?_
      intro c hc
      cases hm : childMatches pid c with
      | true => simp [hnz c hc hm]
      | false => simp [hm]
    rw [hfind]
  · intro idx hlen hz hm hfirst
    have hany : children.any (fun c => childMatches pid c) = true :=
      List.any_eq_true.mpr ⟨children.getD idx default,
        listGetD_mem children idx default hlen, hm⟩
    rw [sys_waitpid, if_neg (by simp [hany])]
    have hfind : findFirstIdx (fun c => isZombie c && childMatches pid c) children
        = some idx := by
      refine findFirstIdx_first _ default children idx hlen (by rw [hz, hm]; rfl) ?_
      intro j hj
      exact hfirst j hj
    rw [hfind]

/-- Witness for C3: the three cases over a two-child list (one running
child with pid 2, one zombie child with pid 3 and exit code 7). -/
theorem sys_waitpid_claim_witness :
    sys_waitpid 9 [⟨2, TaskStatus.Running, 0⟩, ⟨3, TaskStatus.Zombie, 7⟩]
      = (-1, [⟨2, TaskStatus.Running, 0⟩, ⟨3, TaskStatus.Zombie, 7⟩], none) ∧
    sys_waitpid 2 [⟨2, TaskStatus.Running, 0⟩, ⟨3, TaskStatus.Zombie, 7⟩]
      = (-2, [⟨2, TaskStatus.Running, 0⟩, ⟨3, TaskStatus.Zombie, 7⟩], none) ∧
    sys_waitpid (-1) [⟨2, TaskStatus.Running, 0⟩, ⟨3, TaskStatus.Zombie, 7⟩]
      = (3, [⟨2, TaskStatus.Running, 0⟩], some 7) := by
  refine ⟨?_, ?_, ?_⟩
  · exact (sys_waitpid_claim 9 _).1 (by decide)
  · exact (sys_waitpid_claim 2 _).2.1
      ⟨⟨2, TaskStatus.Running, 0⟩, by decide, by decide⟩ (by decide)
  · exact (sys_waitpid_claim (-1) _).2.2 1 (by decide) (by decide) (by decide)
      (by decide)

/-- Counterexample to claim C6 as stated: a scheduling decision reached via
`exit_current_and_run_next` leaves the outgoing task with status `Exited`,
not `Ready`.  Concrete input: two tasks, task 0 `Running` and task 1
`Ready`, current task 0, timestamp 5. -/
theorem run_next_task_claim_counterexample :
    (exit_current_and_run_next 2 5
        ⟨[⟨TaskStatus.Running, 0⟩, ⟨TaskStatus.Ready, 0⟩], 0⟩).map
        (fun st => (st.tasks.getD 0 default).task_status)
      = some TaskStatus.Exited ∧
    TaskStatus.Exited ≠ TaskStatus.Ready := by decide

/-- Claim C6 (amended): every scheduling decision — every successful
`run_next_task`, reached via suspend or via exit — sets the incoming
task's status to `Running` and records its start timestamp before the
context switch; the outgoing task's status is `Ready` when reached via
suspend (observable when a different task is selected) and `Exited` when
reached via exit. -/
theorem run_next_task_claim (now : Nat) (inn inn2 : TaskManagerInner)
    (hcur : inn.current_task < inn.tasks.length) :
    (suspend_current_and_run_next inn.tasks.length now inn = some inn2 →
      (inn2.tasks.getD inn2.current_task default).task_status = TaskStatus.Running ∧
      (inn2.tasks.getD inn2.current_task default).start_time = now ∧
      (inn2.current_task ≠ inn.current_task →
        (inn2.tasks.getD inn.current_task default).task_status = TaskStatus.Ready)) ∧
    (exit_current_and_run_next inn.tasks.length now inn = some inn2 →
      (inn2.tasks.getD inn2.current_task default).task_status = TaskStatus.Running ∧
      (inn2.tasks.getD inn2.current_task default).start_time = now ∧
      inn2.current_task ≠ inn.current_task ∧
      (inn2.tasks.getD inn.current_task default).task_status = TaskStatus.Exited) := by
  constructor
  · intro h
    rw [suspend_current_and_run_next] at h
    have hlen : (mark_current_suspended inn).tasks.length = inn.tasks.length := by
      simp [mark_current_suspended]
    rw [← hlen] at h
    rcases run_next_task_facts now (mark_current_suspended inn) inn2 h with
      ⟨hlt, hready, hrun, hstart, hother⟩
    refine ⟨hrun, hstart, ?_⟩
    intro hne
    rw [hother inn.current_task (fun hh => hne hh.symm)]
    show ((mark_current_suspended inn).tasks.getD inn.current_task default).task_status
        = TaskStatus.Ready
    rw [mark_current_suspended]
    simp only []
    rw [listGetD_set_self _ _ _ _ hcur]
  · intro h
    rw [exit_current_and_run_next] at h
    have hlen : (mark_current_exited inn).tasks.length = inn.tasks.length := by
      simp [mark_current_exited]
    rw [← hlen] at h
    rcases run_next_task_facts now (mark_current_exited inn) inn2 h with
      ⟨hlt, hready, hrun, hstart, hother⟩
    have hexited : ((mark_current_exited inn).tasks.getD inn.current_task default).task_status
        = TaskStatus.Exited := by
      rw [mark_current_exited]
      simp only []
      rw [listGetD_set_self _ _ _ _ hcur]
    have hne : inn2.current_task ≠ inn.current_task := by
      intro hh
      rw [hh, hexited] at hready
      cases hready
    refine ⟨hrun, hstart, hne, ?_⟩
    rw [hother inn.current_task (fun hh => hne hh.symm)]
    exact hexited

/-- Witness for the amended C6: the concrete two-task schedules via suspend
and via exit. -/
theorem run_next_task_claim_witness :
    ((⟨[⟨TaskStatus.Ready, 0⟩, ⟨TaskStatus.Running, 5⟩], 1⟩ :
        TaskManagerInner).tasks.getD 1 default).task_status = TaskStatus.Running ∧
    ((⟨[⟨TaskStatus.Exited, 0⟩, ⟨TaskStatus.Running, 5⟩], 1⟩ :
        TaskManagerInner).tasks.getD 0 default).task_status = TaskStatus.Exited := by
  have h1 := (run_next_task_claim 5
    ⟨[⟨TaskStatus.Running, 0⟩, ⟨TaskStatus.Ready, 0⟩], 0⟩
    ⟨[⟨TaskStatus.Ready, 0⟩, ⟨TaskStatus.Running, 5⟩], 1⟩ (by decide)).1 (by decide)
  have h2 := (run_next_task_claim 5
    ⟨[⟨TaskStatus.Running, 0⟩, ⟨TaskStatus.Ready, 0⟩], 0⟩
    ⟨[⟨TaskStatus.Exited, 0⟩, ⟨TaskStatus.Running, 5⟩], 1⟩ (by decide)).2 (by decide)
  exact ⟨h1.1, h2.2.2.2⟩

/-- Claim C7: the FIFO task manager preserves strict queue order — `add`
appends to the tail, `fetch` removes and returns the head, and for any
three distinct tasks A, B, C added to an empty manager, successive fetches
return A, then B, then C, then none. -/
theorem fifo_order_claim (A B C : Nat) (_hAB : A ≠ B) (_hAC : A ≠ C) (_hBC : B ≠ C) :
    (∀ (m : FifoTaskManager Nat) (t : Nat),
        (m.add t).ready_queue = m.ready_queue ++ [t]) ∧
    (∀ (m : FifoTaskManager Nat) (t : Nat) (rest : List Nat),
        m.ready_queue = t :: rest →
        m.fetch.1 = some t ∧ m.fetch.2.ready_queue = rest) ∧
    (((FifoTaskManager.new.add A).add B).add C).fetch.1 = some A ∧
    (((FifoTaskManager.new.add A).add B).add C).fetch.2.fetch.1 = some B ∧
    (((FifoTaskManager.new.add A).add B).add C).fetch.2.fetch.2.fetch.1 = some C ∧
    (((FifoTaskManager.new.add A).add B).add C).fetch.2.fetch.2.fetch.2.fetch.1
      = none := by
  refine ⟨fun m t => rfl, ?_, rfl, rfl, rfl, rfl⟩
  intro m t rest h
  by_cases hs : (m.sum != 0) = true
  · simp [FifoTaskManager.fetch, hs, h]
  · simp [FifoTaskManager.fetch, hs, h]

/-- Witness for C7: tasks 0, 1, 2. -/
theorem fifo_order_claim_witness :
    (((FifoTaskManager.new.add 0).add 1).add 2).fetch.1 = some 0 ∧
    (((FifoTaskManager.new.add 0).add 1).add 2).fetch.2.fetch.1 = some 1 ∧
    (((FifoTaskManager.new.add 0).add 1).add 2).fetch.2.fetch.2.fetch.1 = some 2 ∧
    (((FifoTaskManager.new.add 0).add 1).add 2).fetch.2.fetch.2.fetch.2.fetch.1
      = none := by
  have h := fifo_order_claim 0 1 2 (by decide) (by decide) (by decide)
  exact ⟨h.2.2.1, h.2.2.2.1, h.2.2.2.2.1, h.2.2.2.2.2⟩

/-- Claim C8: `fork` never fails (the embedding is a total function), the
parent's syscall result is the child's pid as a non-negative value, the
child's saved trap context has its return-value register `x[10]` forced to
zero, and the child is appended to the scheduler's ready queue. -/
theorem sys_fork_claim (parent : PCB) (newPid : Nat) (mgr : FifoTaskManager PCB)
    (hx : 10 < parent.trap_cx.x.length) :
    0 ≤ (sys_fork parent newPid mgr).1 ∧
    (sys_fork parent newPid mgr).1 = Int.ofNat (sys_fork parent newPid mgr).2.1.pid ∧
    (sys_fork parent newPid mgr).2.1.trap_cx.x.getD 10 1 = 0 ∧
    (sys_fork parent newPid mgr).2.2.ready_queue
      = mgr.ready_queue ++ [(sys_fork parent newPid mgr).2.1] := by
  refine ⟨Int.ofNat_nonneg newPid, rfl, ?_, rfl⟩
  show (parent.trap_cx.x.set 10 0).getD 10 1 = 0
  exact listGetD_set_self _ 10 0 1 hx

/-- Witness for C8: a parent with a 32-register trap context forks child
pid 5. -/
theorem sys_fork_claim_witness :
    (sys_fork ⟨1, TaskStatus.Running, ⟨List.replicate 32 9⟩⟩ 5
        FifoTaskManager.new).2.1.trap_cx.x.getD 10 1 = 0 :=
  (sys_fork_claim ⟨1, TaskStatus.Running, ⟨List.replicate 32 9⟩⟩ 5
    FifoTaskManager.new (by decide)).2.2.1

/-- Claim C9: `set_priority(prio)` returns −1 without modifying the task
when `prio ≤ 1`; otherwise it stores `prio` as the task's priority and
returns `prio`, and reading the priority field afterwards observes the
stored value. -/
theorem sys_set_priority_claim (prio : Int) (st : TaskInnerPrio) :
    (prio ≤ 1 → sys_set_priority prio st = (-1, st)) ∧
    (1 < prio →
      (sys_set_priority prio st).1 = prio ∧
      (sys_set_priority prio st).2.task_priority = prio) := by
  constructor
  · intro h
    rw [sys_set_priority, if_pos h]
  · intro h
    rw [sys_set_priority, if_neg (by omega)]
    exact ⟨rfl, rfl⟩

/-- Witness for C9: `set_priority(1)` is rejected, `set_priority(5)` is
stored and echoed. -/
theorem sys_set_priority_claim_witness :
    sys_set_priority 1 ⟨16⟩ = (-1, ⟨16⟩) ∧
    (sys_set_priority 5 ⟨16⟩).1 = 5 ∧
    (sys_set_priority 5 ⟨16⟩).2.task_priority = 5 := by
  refine ⟨(sys_set_priority_claim 1 ⟨16⟩).1 (by decide), ?_, ?_⟩
  · exact ((sys_set_priority_claim 5 ⟨16⟩).2 (by decide)).1
  · exact ((sys_set_priority_claim 5 ⟨16⟩).2 (by decide)).2

/-- Claim C10: the FIFO task manager's `sum` counter always equals the
ready-queue length — it holds for a new manager and is preserved by every
`add` and every `fetch` (including `fetch` on an empty queue), so
`get_task_sum_in_ready` returns the exact number of queued tasks. -/
theorem fifo_sum_invariant_claim {α : Type} :
    fifoInv (FifoTaskManager.new : FifoTaskManager α) ∧
    (∀ (m : FifoTaskManager α) (t : α), fifoInv m → fifoInv (m.add t)) ∧
    (∀ (m : FifoTaskManager α), fifoInv m → fifoInv m.fetch.2) ∧
    (∀ (m : FifoTaskManager α), fifoInv m →
      m.get_task_sum_in_ready = m.ready_queue.length) := by
  refine ⟨rfl, ?_, ?_, fun m h => h⟩
  · intro m t h
    unfold fifoInv FifoTaskManager.add at *
    simp [h]
  · intro m h
    unfold fifoInv at *
    cases hq : m.ready_queue with
    | nil =>
        have hs : m.sum = 0 := by rw [h, hq]; rfl
        simp [FifoTaskManager.fetch, hq, hs]
    | cons t rest =>
        have hs : m.sum = rest.length + 1 := by rw [h, hq]; rfl
        simp [FifoTaskManager.fetch, hq, hs]

/-- Witness for C10: the invariant at concrete managers. -/
theorem fifo_sum_invariant_claim_witness :
    fifoInv ((⟨[5], 1⟩ : FifoTaskManager Nat).add 7) ∧
    fifoInv (⟨[5, 7], 2⟩ : FifoTaskManager Nat).fetch.2 ∧
    (⟨[5], 1⟩ : FifoTaskManager Nat).get_task_sum_in_ready = 1 := by
  refine ⟨?_, ?_, ?_⟩
  · exact (@fifo_sum_invariant_claim Nat).2.1 ⟨[5], 1⟩ 7 (by decide)
  · exact (@fifo_sum_invariant_claim Nat).2.2.1 ⟨[5, 7], 2⟩ (by decide)
  · exact (@fifo_sum_invariant_claim Nat).2.2.2 ⟨[5], 1⟩ (by decide)

end RCore
